import Mathlib

/-!
Shallow embedding of the message codec of the esp32-bus-pirate repository
(crate `esp32-bus-pirate-protocol`: src/rust/protocol/src/{lib,version,message,codec}.rs),
together with proofs of the specified properties of `MessageCodec::encode`
and `MessageCodec::decode`.

Modelling conventions:
* a Rust byte (`u8`) is a `Nat`; byte lists (`&[u8]`, `heapless::Vec<u8, N>`)
  are `List Nat`; where a claim needs the byte range it appears as an
  explicit `< 256` hypothesis;
* `heapless::String<N>` is modelled by its byte content (a `List Nat` with
  capacity bound `N`); the UTF-8 well-formedness check performed by the real
  deserializer is not modelled, so the Lean decoder accepts a superset of the
  payloads the Rust decoder accepts — universally quantified theorems about
  values produced by the encoder are unaffected, and every concrete
  counterexample below is string-free;
* fallible Rust code returns `Except`/`Option`; a slice index that would
  panic in Rust is modelled as `Option.none`, so `MessageCodec.decode`
  returns `Option (Except Error Message)` with `none` standing for a panic
  or out-of-bounds access;
* the external crates the codec calls into (`crc` with `CRC_16_IBM_SDLC`,
  `postcard` serialization, `heapless` containers) are modelled from their
  documented standard behaviour, since the codec's results are determined
  by them.
-/

/-! ## Framing constants (src/rust/protocol/src/lib.rs and version.rs) -/

/-- Frame start marker, `START_BYTE: u8 = 0xAA`. -/
def START_BYTE : Nat := 0xAA

/-- Frame end marker, `END_BYTE: u8 = 0x55`. -/
def END_BYTE : Nat := 0x55

/-- Maximum message size in bytes, `MAX_MESSAGE_SIZE: usize = 1024`. -/
def MAX_MESSAGE_SIZE : Nat := 1024

/-- Current protocol version, `PROTOCOL_VERSION: u8 = 0x01`. -/
def PROTOCOL_VERSION : Nat := 0x01

/-- Error taxonomy of the protocol crate (enum `Error` in lib.rs). -/
inductive Error where
  | FrameTooShort
  | InvalidFrame
  | UnsupportedVersion
  | CrcMismatch
  | EncodingFailed
  | DecodingFailed
  | BufferFull
deriving DecidableEq, Repr

deriving instance DecidableEq for Except

/-! ## CRC-16/ISO-HDLC (a.k.a. CRC-16/X-25)

The codec computes `Crc::<u16>::new(&CRC_16_IBM_SDLC).checksum(data)`:
polynomial 0x1021 (reflected form 0x8408), init 0xFFFF, xorout 0xFFFF,
input and output reflected.  We model the standard bit-serial form of this
algorithm: the 16-bit register is a `Nat` kept below 2^16, each input byte
is fed least-significant bit first, and one bit step is
`state ← (state >>> 1) ^^^ (if (state ^^^ bit) &&& 1 = 1 then 0x8408 else 0)`. -/

/-- The reflected CRC polynomial 0x8408 (bits 3, 10 and 15 set). -/
def crcPoly : Nat := 0x8408

/-- One bit of input: shift right, conditionally xor the reflected polynomial. -/
def stepBit (s : Nat) (b : Bool) : Nat :=
  if xor (s.testBit 0) b then (s >>> 1) ^^^ crcPoly else s >>> 1

/-- Feed a list of bits into the CRC register. -/
def runBits (s : Nat) (bits : List Bool) : Nat :=
  bits.foldl stepBit s

/-- The eight bits of a byte, least significant first. -/
def byteToBits (b : Nat) : List Bool :=
  [b.testBit 0, b.testBit 1, b.testBit 2, b.testBit 3,
   b.testBit 4, b.testBit 5, b.testBit 6, b.testBit 7]

/-- Feed one byte into the CRC register (LSB first: reflected input). -/
def stepByte (s : Nat) (b : Nat) : Nat :=
  runBits s (byteToBits b)

/-- CRC register contents after processing a byte list (init 0xFFFF). -/
def crcState (data : List Nat) : Nat :=
  data.foldl stepByte 0xFFFF

/-- CRC-16/ISO-HDLC checksum of a byte list: run the register, then apply
the final xor mask 0xFFFF.  This is `CRC.checksum` of codec.rs. -/
def crc16 (data : List Nat) : Nat :=
  crcState data ^^^ 0xFFFF

/-! ## Value model (src/rust/protocol/src/message.rs)

The `Message`, `Mode`, `Response` and `ErrorCode` enums, with `heapless`
containers modelled as `List Nat` plus capacity predicates. -/

/-- Bus Pirate operating modes (enum `Mode`), in declaration order. -/
inductive Mode where
  | HiZ | I2c | Spi | Uart | OneWire | TwoWire | ThreeWire | Dio | Infrared
  | Usb | Bluetooth | Wifi | Ethernet | Jtag | Led | I2s | Can | SubGhz
  | Rfid | Rf24
deriving DecidableEq, Repr

/-- Response types (enum `Response`), in declaration order. -/
inductive Response where
  | Success
  | Data (data : List Nat)
  | I2cDevices (devices : List Nat)
  | CurrentMode (mode : Mode)
  | ConfigValue (value : List Nat)
  | FileList (files : List (List Nat))
deriving DecidableEq, Repr

/-- Error codes (enum `ErrorCode`), in declaration order. -/
inductive ErrorCode where
  | InvalidCommand | ProtocolError | BusError | FileNotFound
  | PermissionDenied | Timeout | NotConfigured | InvalidParameter
deriving DecidableEq, Repr

/-- The protocol message enum (enum `Message`), in declaration order. -/
inductive Message where
  | SetMode (mode : Mode)
  | GetMode
  | I2cScan
  | I2cWrite (addr : Nat) (data : List Nat)
  | I2cRead (addr : Nat) (len : Nat)
  | I2cReadRegister (addr : Nat) (reg : Nat)
  | I2cWriteRegister (addr : Nat) (reg : Nat) (value : Nat)
  | SpiTransfer (data : List Nat)
  | UartWrite (data : List Nat)
  | UartRead (len : Nat)
  | UartConfig (baudrate : Nat)
  | SetConfig (key : List Nat) (value : List Nat)
  | GetConfig (key : List Nat)
  | FileList (path : List Nat)
  | FileRead (path : List Nat)
  | FileWrite (path : List Nat) (data : List Nat)
  | Response (resp : Response)
  | Error (code : ErrorCode)
deriving DecidableEq, Repr

/-- Declaration-order ordinal of a `Mode` (the serde variant index). -/
def Mode.toNat : Mode → Nat
  | .HiZ => 0 | .I2c => 1 | .Spi => 2 | .Uart => 3 | .OneWire => 4
  | .TwoWire => 5 | .ThreeWire => 6 | .Dio => 7 | .Infrared => 8
  | .Usb => 9 | .Bluetooth => 10 | .Wifi => 11 | .Ethernet => 12
  | .Jtag => 13 | .Led => 14 | .I2s => 15 | .Can => 16 | .SubGhz => 17
  | .Rfid => 18 | .Rf24 => 19

/-- Partial inverse of `Mode.toNat`; `none` for an ordinal outside 0..19
(an unknown variant tag is a deserialization error). -/
def Mode.fromNat : Nat → Option Mode
  | 0 => some .HiZ | 1 => some .I2c | 2 => some .Spi | 3 => some .Uart
  | 4 => some .OneWire | 5 => some .TwoWire | 6 => some .ThreeWire
  | 7 => some .Dio | 8 => some .Infrared | 9 => some .Usb
  | 10 => some .Bluetooth | 11 => some .Wifi | 12 => some .Ethernet
  | 13 => some .Jtag | 14 => some .Led | 15 => some .I2s | 16 => some .Can
  | 17 => some .SubGhz | 18 => some .Rfid | 19 => some .Rf24
  | _ => none

/-- Declaration-order ordinal of an `ErrorCode`. -/
def ErrorCode.toNat : ErrorCode → Nat
  | .InvalidCommand => 0 | .ProtocolError => 1 | .BusError => 2
  | .FileNotFound => 3 | .PermissionDenied => 4 | .Timeout => 5
  | .NotConfigured => 6 | .InvalidParameter => 7

/-- Partial inverse of `ErrorCode.toNat`. -/
def ErrorCode.fromNat : Nat → Option ErrorCode
  | 0 => some .InvalidCommand | 1 => some .ProtocolError | 2 => some .BusError
  | 3 => some .FileNotFound | 4 => some .PermissionDenied | 5 => some .Timeout
  | 6 => some .NotConfigured | 7 => some .InvalidParameter
  | _ => none

/-- A byte list fits a `heapless` container of capacity `cap`: its length is
within the capacity and every element is a byte. -/
def bytesOk (cap : Nat) (l : List Nat) : Bool :=
  decide (l.length ≤ cap) && l.all (fun b => decide (b < 256))

/-- Capacity/range invariant of a `Response` value: every `heapless` field
is within its declared capacity (`Data ≤ 512`, `I2cDevices ≤ 128`,
`ConfigValue ≤ 64`, `FileList` up to 32 strings of up to 64 bytes), matching
what is constructible in the Rust type. -/
def Response.validB : Response → Bool
  | .Success => true
  | .Data d => bytesOk 512 d
  | .I2cDevices d => bytesOk 128 d
  | .CurrentMode _ => true
  | .ConfigValue s => bytesOk 64 s
  | .FileList xs => decide (xs.length ≤ 32) && xs.all (bytesOk 64)

/-- Capacity/range invariant of a `Message` value: every variable-length
field is within its declared `heapless` capacity and every integer field is
within its Rust integer type, matching what is constructible in Rust. -/
def Message.validB : Message → Bool
  | .SetMode _ => true
  | .GetMode => true
  | .I2cScan => true
  | .I2cWrite addr data => decide (addr < 256) && bytesOk 256 data
  | .I2cRead addr len => decide (addr < 256) && decide (len < 256)
  | .I2cReadRegister addr reg => decide (addr < 256) && decide (reg < 256)
  | .I2cWriteRegister addr reg value =>
      decide (addr < 256) && decide (reg < 256) && decide (value < 256)
  | .SpiTransfer data => bytesOk 256 data
  | .UartWrite data => bytesOk 256 data
  | .UartRead len => decide (len < 65536)
  | .UartConfig baudrate => decide (baudrate < 4294967296)
  | .SetConfig key value => bytesOk 32 key && bytesOk 64 value
  | .GetConfig key => bytesOk 32 key
  | .FileList path => bytesOk 128 path
  | .FileRead path => bytesOk 128 path
  | .FileWrite path data => bytesOk 128 path && bytesOk 512 data
  | .Response r => r.validB
  | .Error _ => true

/-! ## heapless construction model

`heapless::Vec::push` fails (returning the rejected element) when the vector
is full; `Vec::from_slice` / `String::try_from` fail when the input exceeds
the capacity.  Construction therefore either preserves the input exactly or
fails; it never truncates. -/

/-- Model of `heapless::Vec::<u8, cap>::push`: appends, or fails when full. -/
def hvecPush (cap : Nat) (v : List Nat) (b : Nat) : Option (List Nat) :=
  if v.length < cap then some (v ++ [b]) else none

/-- Model of `heapless::Vec::<u8, cap>::from_slice` (and of building the
vector by repeated `push`): pushes every element in order. -/
def hvecFromSlice (cap : Nat) (l : List Nat) : Option (List Nat) :=
  l.foldlM (hvecPush cap) []

/-! ## postcard wire format model

`postcard` encodes an enum as the LEB128 varint of its variant ordinal
followed by the fields in declaration order; `u8` as one raw byte; `u16`,
`u32` and sequence lengths (`usize`, 32-bit on the target) as LEB128
varints; byte sequences and strings as a varint length followed by the raw
bytes.  The deserializer reads a varint of at most `ceil(bits/7)` bytes and
rejects a final byte exceeding the type's range, rejects unknown variant
ordinals and truncated input, and `from_bytes` ignores any bytes left over
after the value has been read. -/

/-- LEB128 varint encoding, on fuel for structural recursion: 7 data bits
per byte, little-endian groups, continuation bit 0x80 on all but the final
byte. -/
def varintEncodeAux : Nat → Nat → List Nat
  | 0, _ => []
  | fuel + 1, n =>
      if n < 128 then [n] else (n % 128 + 128) :: varintEncodeAux fuel (n / 128)

/-- LEB128 varint encoding of `n`; fuel `n + 1` always suffices because the
value shrinks by a factor of 128 at every emitted byte. -/
def varintEncode (n : Nat) : List Nat := varintEncodeAux (n + 1) n

/-- The fuel is irrelevant as long as it exceeds the value. -/
theorem varintEncodeAux_irrel :
    ∀ fuel fuel' n, n < fuel → n < fuel' →
      varintEncodeAux fuel n = varintEncodeAux fuel' n := by
  intro fuel
  induction fuel with
  | zero => intro fuel' n h; omega
  | succ f ih =>
    intro fuel' n h1 h2
    cases fuel' with
    | zero => omega
    | succ f' =>
      simp only [varintEncodeAux]
      by_cases h : n < 128
      · simp [h]
      · simp only [if_neg h]
        rw [ih f' (n / 128) (by omega) (by omega)]

/-- One-step unfolding of the varint encoder. -/
theorem varintEncode_unfold (n : Nat) :
    varintEncode n = if n < 128 then [n] else (n % 128 + 128) :: varintEncode (n / 128) := by
  rw [varintEncode]
  simp only [varintEncodeAux]
  by_cases h : n < 128
  · simp [h]
  · simp only [if_neg h]
    rw [varintEncode, varintEncodeAux_irrel n (n / 128 + 1) (n / 128) (by omega) (by omega)]

/-- Varint decoder of `postcard` (`try_take_varint_uXX`): reads at most
`maxBytes` bytes; when the final byte lands on the last permitted position
it must not exceed `lastMax`; a continuation bit there is an error. -/
def parseVarintAux (lastMax : Nat) : Nat → List Nat → Option (Nat × List Nat)
  | _, [] => none
  | 0, _ :: _ => none
  | 1, b :: rest =>
      if b < 128 then (if b ≤ lastMax then some (b, rest) else none) else none
  | n + 2, b :: rest =>
      if b < 128 then some (b, rest)
      else (parseVarintAux lastMax (n + 1) rest).map
        (fun vr => (b % 128 + 128 * vr.1, vr.2))

/-- `u16` varint decoder: at most 3 bytes, last byte at most 0b11. -/
def parseVarint16 (bs : List Nat) : Option (Nat × List Nat) :=
  parseVarintAux 3 3 bs

/-- `u32`/`usize` varint decoder: at most 5 bytes, last byte at most 0b1111. -/
def parseVarint32 (bs : List Nat) : Option (Nat × List Nat) :=
  parseVarintAux 15 5 bs

/-- Serialize a byte sequence or string: varint length, then the raw bytes
(masked to byte range; in Rust the elements are `u8` by type). -/
def serBytes (l : List Nat) : List Nat :=
  varintEncode l.length ++ l.map (· % 256)

/-- Deserialize a byte sequence or string into a `heapless` container of
capacity `cap`: read the varint length, fail if the input is too short
(`DeserializeUnexpectedEnd`) or the length exceeds the capacity (the
`heapless` push fails), else take exactly that many bytes. -/
def parseBytes (cap : Nat) (bs : List Nat) : Option (List Nat × List Nat) :=
  match parseVarint32 bs with
  | none => none
  | some (n, rest) =>
      if n ≤ cap ∧ n ≤ rest.length then some (rest.take n, rest.drop n)
      else none

/-- Deserialize one `u8`: pop one byte. -/
def parseU8 : List Nat → Option (Nat × List Nat)
  | [] => none
  | b :: rest => some (b, rest)

/-- Deserialize a `Mode`: a `u32` varint variant ordinal, which must name a
declared variant. -/
def parseMode (bs : List Nat) : Option (Mode × List Nat) :=
  match parseVarint32 bs with
  | none => none
  | some (t, rest) =>
      match Mode.fromNat t with
      | none => none
      | some m => some (m, rest)

/-- Deserialize an `ErrorCode`: a `u32` varint variant ordinal. -/
def parseErrorCode (bs : List Nat) : Option (ErrorCode × List Nat) :=
  match parseVarint32 bs with
  | none => none
  | some (t, rest) =>
      match ErrorCode.fromNat t with
      | none => none
      | some c => some (c, rest)

/-- Serialize a `Mode` (ordinal < 128, so its varint is one byte). -/
def Mode.ser (m : Mode) : List Nat := [m.toNat]

/-- Serialize an `ErrorCode` (ordinal < 128, one varint byte). -/
def ErrorCode.ser (c : ErrorCode) : List Nat := [c.toNat]

/-- Serialize a `Response` (variant ordinal, then fields; ordinals < 128
encode as a single varint byte). -/
def Response.ser : Response → List Nat
  | .Success => [0]
  | .Data d => 1 :: serBytes d
  | .I2cDevices d => 2 :: serBytes d
  | .CurrentMode m => 3 :: m.ser
  | .ConfigValue s => 4 :: serBytes s
  | .FileList xs => 5 :: (varintEncode xs.length ++ (xs.map serBytes).flatten)

/-- Deserialize `count` strings of capacity 64 (the elements of a
`heapless::Vec<String<64>, 32>`). -/
def parseStrings : Nat → List Nat → Option (List (List Nat) × List Nat)
  | 0, bs => some ([], bs)
  | k + 1, bs =>
      match parseBytes 64 bs with
      | none => none
      | some (s, rest) =>
          (parseStrings k rest).map (fun pr => (s :: pr.1, pr.2))

/-- Deserialize a `Response`. -/
def Response.parse (bs : List Nat) : Option (Response × List Nat) :=
  match parseVarint32 bs with
  | none => none
  | some (t, rest) =>
      if t = 0 then some (.Success, rest)
      else if t = 1 then (parseBytes 512 rest).map (fun pr => (.Data pr.1, pr.2))
      else if t = 2 then
        (parseBytes 128 rest).map (fun pr => (.I2cDevices pr.1, pr.2))
      else if t = 3 then (parseMode rest).map (fun pr => (.CurrentMode pr.1, pr.2))
      else if t = 4 then
        (parseBytes 64 rest).map (fun pr => (.ConfigValue pr.1, pr.2))
      else if t = 5 then
        match parseVarint32 rest with
        | none => none
        | some (n, rest2) =>
            if n ≤ 32 then (parseStrings n rest2).map (fun pr => (.FileList pr.1, pr.2))
            else none
      else none

/-- Serialize a `Message` with postcard: the varint of the variant ordinal
(all ordinals < 128, hence one byte), then the fields in declaration order. -/
def Message.ser : Message → List Nat
  | .SetMode mode => 0 :: mode.ser
  | .GetMode => [1]
  | .I2cScan => [2]
  | .I2cWrite addr data => 3 :: addr % 256 :: serBytes data
  | .I2cRead addr len => [4, addr % 256, len % 256]
  | .I2cReadRegister addr reg => [5, addr % 256, reg % 256]
  | .I2cWriteRegister addr reg value => [6, addr % 256, reg % 256, value % 256]
  | .SpiTransfer data => 7 :: serBytes data
  | .UartWrite data => 8 :: serBytes data
  | .UartRead len => 9 :: varintEncode len
  | .UartConfig baudrate => 10 :: varintEncode baudrate
  | .SetConfig key value => 11 :: (serBytes key ++ serBytes value)
  | .GetConfig key => 12 :: serBytes key
  | .FileList path => 13 :: serBytes path
  | .FileRead path => 14 :: serBytes path
  | .FileWrite path data => 15 :: (serBytes path ++ serBytes data)
  | .Response r => 16 :: r.ser
  | .Error c => 17 :: c.ser

/-- Deserialize a `Message`: variant ordinal, then fields.  An ordinal
outside 0..17 is a deserialization error. -/
def Message.parse (bs : List Nat) : Option (Message × List Nat) :=
  match parseVarint32 bs with
  | none => none
  | some (t, rest) =>
      if t = 0 then (parseMode rest).map (fun pr => (.SetMode pr.1, pr.2))
      else if t = 1 then some (.GetMode, rest)
      else if t = 2 then some (.I2cScan, rest)
      else if t = 3 then
        match parseU8 rest with
        | none => none
        | some (addr, r1) =>
            (parseBytes 256 r1).map (fun pr => (.I2cWrite addr pr.1, pr.2))
      else if t = 4 then
        match parseU8 rest with
        | none => none
        | some (addr, r1) =>
            (parseU8 r1).map (fun pr => (.I2cRead addr pr.1, pr.2))
      else if t = 5 then
        match parseU8 rest with
        | none => none
        | some (addr, r1) =>
            (parseU8 r1).map (fun pr => (.I2cReadRegister addr pr.1, pr.2))
      else if t = 6 then
        match parseU8 rest with
        | none => none
        | some (addr, r1) =>
            match parseU8 r1 with
            | none => none
            | some (reg, r2) =>
                (parseU8 r2).map (fun pr => (.I2cWriteRegister addr reg pr.1, pr.2))
      else if t = 7 then
        (parseBytes 256 rest).map (fun pr => (.SpiTransfer pr.1, pr.2))
      else if t = 8 then
        (parseBytes 256 rest).map (fun pr => (.UartWrite pr.1, pr.2))
      else if t = 9 then
        (parseVarint16 rest).map (fun pr => (.UartRead pr.1, pr.2))
      else if t = 10 then
        (parseVarint32 rest).map (fun pr => (.UartConfig pr.1, pr.2))
      else if t = 11 then
        match parseBytes 32 rest with
        | none => none
        | some (key, r1) =>
            (parseBytes 64 r1).map (fun pr => (.SetConfig key pr.1, pr.2))
      else if t = 12 then
        (parseBytes 32 rest).map (fun pr => (.GetConfig pr.1, pr.2))
      else if t = 13 then
        (parseBytes 128 rest).map (fun pr => (.FileList pr.1, pr.2))
      else if t = 14 then
        (parseBytes 128 rest).map (fun pr => (.FileRead pr.1, pr.2))
      else if t = 15 then
        match parseBytes 128 rest with
        | none => none
        | some (path, r1) =>
            (parseBytes 512 r1).map (fun pr => (.FileWrite path pr.1, pr.2))
      else if t = 16 then
        (Response.parse rest).map (fun pr => (.Response pr.1, pr.2))
      else if t = 17 then
        (parseErrorCode rest).map (fun pr => (.Error pr.1, pr.2))
      else none

/-- Model of `postcard::from_bytes`: deserialize one value from the front of
the slice; any unused trailing bytes are ignored. -/
def fromBytes (bs : List Nat) : Option Message :=
  (Message.parse bs).map (fun pr => pr.1)

/-- Model of `postcard::to_slice` into the `[u8; MAX_MESSAGE_SIZE]` scratch
buffer of `encode`: fails (`SerializeBufferFull`, mapped to
`EncodingFailed`) when the serialized bytes do not fit. -/
def toSlice (msg : Message) : Option (List Nat) :=
  if msg.ser.length ≤ MAX_MESSAGE_SIZE then some msg.ser else none

/-! ## The frame codec (src/rust/protocol/src/codec.rs) -/

/-- Model of a Rust subslice `&l[a..b]`: `none` models the panic when
`a > b` or `b > l.len()`. -/
def sliceRange (l : List Nat) (a b : Nat) : Option (List Nat) :=
  if a ≤ b ∧ b ≤ l.length then some ((l.take b).drop a) else none

/-- `MessageCodec::encode`: serialize with postcard, then assemble
START, VERSION, LENGTH (u16 LE), PAYLOAD, CRC16 (LE, over VERSION through
PAYLOAD), END inside a `heapless::Vec<u8, MAX_MESSAGE_SIZE>`, failing with
`BufferFull` at the first append that would exceed the capacity. -/
def MessageCodec.encode (msg : Message) : Except Error (List Nat) :=
  match toSlice msg with
  | none => .error .EncodingFailed
  | some payload =>
      let len := payload.length
      let lenBytes := [len % 256, len / 256 % 256]
      if 4 + len > MAX_MESSAGE_SIZE then .error .BufferFull
      else
        let c := crc16 (PROTOCOL_VERSION :: lenBytes ++ payload)
        if 6 + len > MAX_MESSAGE_SIZE then .error .BufferFull
        else if 7 + len > MAX_MESSAGE_SIZE then .error .BufferFull
        else .ok ([START_BYTE, PROTOCOL_VERSION] ++ lenBytes ++ payload
                  ++ [c % 256, c / 256 % 256] ++ [END_BYTE])

/-- `MessageCodec::decode`: validate frame length, markers, version, length
field and CRC in that order, then deserialize the payload.  The outer
`Option` models panic-freedom: every slice index the Rust code performs is
modelled by a fallible access, and `none` would mean a panic. -/
def MessageCodec.decode (frame : List Nat) : Option (Except Error Message) := do
  if frame.length < 7 then return .error .FrameTooShort
  let b0 ← frame[0]?
  let bLast ← frame[frame.length - 1]?
  if b0 ≠ START_BYTE ∨ bLast ≠ END_BYTE then return .error .InvalidFrame
  let version ← frame[1]?
  if version ≠ PROTOCOL_VERSION then return .error .UnsupportedVersion
  let b2 ← frame[2]?
  let b3 ← frame[3]?
  let len := b2 + 256 * b3
  let payloadEnd := 4 + len
  if frame.length < payloadEnd + 3 then return .error .FrameTooShort
  let payload ← sliceRange frame 4 payloadEnd
  let c0 ← frame[payloadEnd]?
  let c1 ← frame[payloadEnd + 1]?
  let crcReceived := c0 + 256 * c1
  let crcData ← sliceRange frame 1 payloadEnd
  if crcReceived ≠ crc16 crcData then return .error .CrcMismatch
  match fromBytes payload with
  | some m => return .ok m
  | none => return .error .DecodingFailed

/-! ## Basic facts about the serializers and parsers -/

/-- Unfolding of the byte-list capacity predicate. -/
theorem bytesOk_iff {cap : Nat} {l : List Nat} :
    bytesOk cap l = true ↔ l.length ≤ cap ∧ ∀ b ∈ l, b < 256 := by
  simp [bytesOk]

/-- Masking a list of bytes to byte range is the identity. -/
theorem map_mod_of_bytes {l : List Nat} (h : ∀ b ∈ l, b < 256) :
    l.map (· % 256) = l := by
  have : l.map (· % 256) = l.map id :=
    List.map_congr_left (fun a ha => Nat.mod_eq_of_lt (h a ha))
  simpa using this

/-- The varint decoder inverts the varint encoder: reading back an encoded
value that fits in the permitted width returns the value and leaves the
trailing bytes untouched. -/
theorem parseVarintAux_enc {lastMax : Nat} (hlm : lastMax < 128) :
    ∀ n k rest, 1 ≤ k → n < 128 ^ (k - 1) * (lastMax + 1) →
      parseVarintAux lastMax k (varintEncode n ++ rest) = some (n, rest) := by
  intro n
  induction n using Nat.strong_induction_on with
  | _ n ih =>
    intro k rest hk hbound
    rw [varintEncode_unfold]
    by_cases h : n < 128
    · simp only [if_pos h, List.cons_append, List.nil_append]
      match k, hk with
      | 1, _ =>
        have hle : n ≤ lastMax := by simp at hbound; omega
        simp [parseVarintAux, h, hle]
      | k' + 2, _ =>
        simp [parseVarintAux, h]
    · simp only [if_neg h]
      match k, hk with
      | 1, _ =>
        exfalso
        have : n < lastMax + 1 := by simpa using hbound
        omega
      | k' + 2, _ =>
        have hb : ¬ (n % 128 + 128 < 128) := by omega
        have hrec : parseVarintAux lastMax (k' + 1) (varintEncode (n / 128) ++ rest)
            = some (n / 128, rest) := by
          refine ih (n / 128) (Nat.div_lt_self (by omega) (by omega)) (k' + 1) rest
            (by omega) ?_
          have h2 : n < 128 ^ (k' + 1) * (lastMax + 1) := by simpa using hbound
          have : n / 128 < 128 ^ k' * (lastMax + 1) := by
            rw [Nat.div_lt_iff_lt_mul (by omega)]
            calc n < 128 ^ (k' + 1) * (lastMax + 1) := h2
            _ = 128 ^ k' * (lastMax + 1) * 128 := by ring
          simpa using this
        simp only [parseVarintAux, List.cons_append, if_neg hb, hrec, Option.map_some]
        have hv : (n % 128 + 128) % 128 + 128 * (n / 128) = n := by omega
        simp only [Option.map_eq_some']
        exact ⟨(n / 128, rest), hrec, by simp; omega⟩

/-- Round trip for `u32`/`usize` varints. -/
theorem parseVarint32_enc {n : Nat} (rest : List Nat) (h : n < 4294967296) :
    parseVarint32 (varintEncode n ++ rest) = some (n, rest) :=
  parseVarintAux_enc (by omega) n 5 rest (by omega) (by norm_num; omega)

/-- Round trip for `u16` varints. -/
theorem parseVarint16_enc {n : Nat} (rest : List Nat) (h : n < 65536) :
    parseVarint16 (varintEncode n ++ rest) = some (n, rest) :=
  parseVarintAux_enc (by omega) n 3 rest (by omega) (by norm_num; omega)

/-- A single byte below 128 is a complete varint. -/
theorem parseVarint32_single {b : Nat} (rest : List Nat) (h : b < 128) :
    parseVarint32 (b :: rest) = some (b, rest) := by
  simp [parseVarint32, parseVarintAux, h]

/-- Reading back a serialized byte sequence that fits its capacity. -/
theorem parseBytes_serBytes {cap : Nat} {l : List Nat} (rest : List Nat)
    (hcap : l.length ≤ cap) (hbyte : ∀ b ∈ l, b < 256)
    (hsz : l.length < 4294967296) :
    parseBytes cap (serBytes l ++ rest) = some (l, rest) := by
  have henc : parseVarint32 (varintEncode l.length ++ (l.map (· % 256) ++ rest))
      = some (l.length, l.map (· % 256) ++ rest) :=
    parseVarint32_enc _ hsz
  have hm : l.map (· % 256) = l := map_mod_of_bytes hbyte
  rw [hm] at henc
  simp only [parseBytes, serBytes, List.append_assoc, hm, henc]
  rw [if_pos ⟨hcap, by simp⟩]
  simp [List.take_left, List.drop_left]

/-- `Mode.fromNat` inverts `Mode.toNat`. -/
theorem mode_fromNat_toNat (m : Mode) : Mode.fromNat m.toNat = some m := by
  cases m <;> rfl

/-- Every `Mode` ordinal fits one varint byte. -/
theorem mode_toNat_lt (m : Mode) : m.toNat < 128 := by
  cases m <;> decide

/-- `ErrorCode.fromNat` inverts `ErrorCode.toNat`. -/
theorem errorCode_fromNat_toNat (c : ErrorCode) : ErrorCode.fromNat c.toNat = some c := by
  cases c <;> rfl

/-- Every `ErrorCode` ordinal fits one varint byte. -/
theorem errorCode_toNat_lt (c : ErrorCode) : c.toNat < 128 := by
  cases c <;> decide

/-- Reading back a serialized `Mode`. -/
theorem parseMode_ser (m : Mode) (rest : List Nat) :
    parseMode (m.ser ++ rest) = some (m, rest) := by
  have h1 : parseVarint32 (m.toNat :: rest) = some (m.toNat, rest) :=
    parseVarint32_single rest (mode_toNat_lt m)
  simp [parseMode, Mode.ser, h1, mode_fromNat_toNat]

/-- Reading back a serialized `ErrorCode`. -/
theorem parseErrorCode_ser (c : ErrorCode) (rest : List Nat) :
    parseErrorCode (c.ser ++ rest) = some (c, rest) := by
  have h1 : parseVarint32 (c.toNat :: rest) = some (c.toNat, rest) :=
    parseVarint32_single rest (errorCode_toNat_lt c)
  simp [parseErrorCode, ErrorCode.ser, h1, errorCode_fromNat_toNat]

/-- Reading back a serialized list of capacity-64 strings. -/
theorem parseStrings_ser (xs : List (List Nat)) (rest : List Nat)
    (h : ∀ s ∈ xs, bytesOk 64 s = true) :
    parseStrings xs.length ((xs.map serBytes).flatten ++ rest) = some (xs, rest) := by
  induction xs with
  | nil => simp [parseStrings]
  | cons x xs ih =>
    have hx := bytesOk_iff.mp (h x (by simp))
    have hp : parseBytes 64 (serBytes x ++ ((xs.map serBytes).flatten ++ rest))
        = some (x, (xs.map serBytes).flatten ++ rest) :=
      parseBytes_serBytes _ hx.1 hx.2 (by omega)
    have ih2 := ih (fun s hs => h s (by simp [hs]))
    simp [parseStrings, List.append_assoc, hp, ih2]

/-- Reading back a serialized `Response` that satisfies the capacity
invariant. -/
theorem response_parse_ser (r : Response) (rest : List Nat) (h : r.validB = true) :
    Response.parse (r.ser ++ rest) = some (r, rest) := by
  cases r with
  | Success =>
    have ht : parseVarint32 (0 :: rest) = some (0, rest) :=
      parseVarint32_single rest (by omega)
    simp [Response.ser, Response.parse, ht]
  | Data d =>
    have hd := bytesOk_iff.mp (by simpa [Response.validB] using h)
    have ht : parseVarint32 (1 :: (serBytes d ++ rest)) = some (1, serBytes d ++ rest) :=
      parseVarint32_single _ (by omega)
    have hp : parseBytes 512 (serBytes d ++ rest) = some (d, rest) :=
      parseBytes_serBytes _ hd.1 hd.2 (by omega)
    simp [Response.ser, Response.parse, ht, hp]
  | I2cDevices d =>
    have hd := bytesOk_iff.mp (by simpa [Response.validB] using h)
    have ht : parseVarint32 (2 :: (serBytes d ++ rest)) = some (2, serBytes d ++ rest) :=
      parseVarint32_single _ (by omega)
    have hp : parseBytes 128 (serBytes d ++ rest) = some (d, rest) :=
      parseBytes_serBytes _ hd.1 hd.2 (by omega)
    simp [Response.ser, Response.parse, ht, hp]
  | CurrentMode m =>
    have ht : parseVarint32 (3 :: (m.ser ++ rest)) = some (3, m.ser ++ rest) :=
      parseVarint32_single _ (by omega)
    simp [Response.ser, Response.parse, ht, parseMode_ser]
  | ConfigValue s =>
    have hs := bytesOk_iff.mp (by simpa [Response.validB] using h)
    have ht : parseVarint32 (4 :: (serBytes s ++ rest)) = some (4, serBytes s ++ rest) :=
      parseVarint32_single _ (by omega)
    have hp : parseBytes 64 (serBytes s ++ rest) = some (s, rest) :=
      parseBytes_serBytes _ hs.1 hs.2 (by omega)
    simp [Response.ser, Response.parse, ht, hp]
  | FileList xs =>
    have hx : xs.length ≤ 32 ∧ ∀ s ∈ xs, bytesOk 64 s = true := by
      simpa [Response.validB] using h
    have ht : parseVarint32 (5 :: (varintEncode xs.length ++ ((xs.map serBytes).flatten ++ rest)))
        = some (5, varintEncode xs.length ++ ((xs.map serBytes).flatten ++ rest)) :=
      parseVarint32_single _ (by omega)
    have hn : parseVarint32 (varintEncode xs.length ++ ((xs.map serBytes).flatten ++ rest))
        = some (xs.length, (xs.map serBytes).flatten ++ rest) :=
      parseVarint32_enc _ (by omega)
    have hstr := parseStrings_ser xs rest hx.2
    simp [Response.ser, Response.parse, List.append_assoc, ht, hn, hx.1, hstr]

/-- Reading back a serialized `Message` that satisfies the capacity
invariant: the postcard deserializer inverts the serializer, leaving
trailing bytes untouched. -/
theorem message_parse_ser (m : Message) (rest : List Nat) (h : m.validB = true) :
    Message.parse (m.ser ++ rest) = some (m, rest) := by
  cases m with
  | SetMode mode =>
    have ht : parseVarint32 (0 :: (mode.ser ++ rest)) = some (0, mode.ser ++ rest) :=
      parseVarint32_single _ (by omega)
    simp [Message.ser, Message.parse, ht, parseMode_ser]
  | GetMode =>
    have ht : parseVarint32 (1 :: rest) = some (1, rest) :=
      parseVarint32_single _ (by omega)
    simp [Message.ser, Message.parse, ht]
  | I2cScan =>
    have ht : parseVarint32 (2 :: rest) = some (2, rest) :=
      parseVarint32_single _ (by omega)
    simp [Message.ser, Message.parse, ht]
  | I2cWrite addr data =>
    have hv : addr < 256 ∧ (data.length ≤ 256 ∧ ∀ b ∈ data, b < 256) := by
      simpa [Message.validB, bytesOk_iff] using h
    have ha : addr % 256 = addr := Nat.mod_eq_of_lt hv.1
    have ht : parseVarint32 (3 :: (addr :: (serBytes data ++ rest)))
        = some (3, addr :: (serBytes data ++ rest)) :=
      parseVarint32_single _ (by omega)
    have hp : parseBytes 256 (serBytes data ++ rest) = some (data, rest) :=
      parseBytes_serBytes _ hv.2.1 hv.2.2 (by omega)
    simp [Message.ser, Message.parse, ha, ht, parseU8, hp]
  | I2cRead addr len =>
    have hv : addr < 256 ∧ len < 256 := by simpa [Message.validB] using h
    have ht : parseVarint32 (4 :: (addr :: len :: rest))
        = some (4, addr :: len :: rest) :=
      parseVarint32_single _ (by omega)
    simp [Message.ser, Message.parse, Nat.mod_eq_of_lt hv.1,
          Nat.mod_eq_of_lt hv.2, ht, parseU8]
  | I2cReadRegister addr reg =>
    have hv : addr < 256 ∧ reg < 256 := by simpa [Message.validB] using h
    have ht : parseVarint32 (5 :: (addr :: reg :: rest))
        = some (5, addr :: reg :: rest) :=
      parseVarint32_single _ (by omega)
    simp [Message.ser, Message.parse, Nat.mod_eq_of_lt hv.1,
          Nat.mod_eq_of_lt hv.2, ht, parseU8]
  | I2cWriteRegister addr reg value =>
    have hv : (addr < 256 ∧ reg < 256) ∧ value < 256 := by
      simpa [Message.validB] using h
    have ht : parseVarint32 (6 :: (addr :: reg :: value :: rest))
        = some (6, addr :: reg :: value :: rest) :=
      parseVarint32_single _ (by omega)
    simp [Message.ser, Message.parse, Nat.mod_eq_of_lt hv.1.1,
          Nat.mod_eq_of_lt hv.1.2, Nat.mod_eq_of_lt hv.2, ht, parseU8]
  | SpiTransfer data =>
    have hv := bytesOk_iff.mp (by simpa [Message.validB] using h)
    have ht : parseVarint32 (7 :: (serBytes data ++ rest)) = some (7, serBytes data ++ rest) :=
      parseVarint32_single _ (by omega)
    have hp : parseBytes 256 (serBytes data ++ rest) = some (data, rest) :=
      parseBytes_serBytes _ hv.1 hv.2 (by omega)
    simp [Message.ser, Message.parse, ht, hp]
  | UartWrite data =>
    have hv := bytesOk_iff.mp (by simpa [Message.validB] using h)
    have ht : parseVarint32 (8 :: (serBytes data ++ rest)) = some (8, serBytes data ++ rest) :=
      parseVarint32_single _ (by omega)
    have hp : parseBytes 256 (serBytes data ++ rest) = some (data, rest) :=
      parseBytes_serBytes _ hv.1 hv.2 (by omega)
    simp [Message.ser, Message.parse, ht, hp]
  | UartRead len =>
    have hv : len < 65536 := by simpa [Message.validB] using h
    have ht : parseVarint32 (9 :: (varintEncode len ++ rest))
        = some (9, varintEncode len ++ rest) :=
      parseVarint32_single _ (by omega)
    simp [Message.ser, Message.parse, ht, parseVarint16_enc rest hv]
  | UartConfig baudrate =>
    have hv : baudrate < 4294967296 := by simpa [Message.validB] using h
    have ht : parseVarint32 (10 :: (varintEncode baudrate ++ rest))
        = some (10, varintEncode baudrate ++ rest) :=
      parseVarint32_single _ (by omega)
    simp [Message.ser, Message.parse, ht, parseVarint32_enc rest hv]
  | SetConfig key value =>
    have hv : (key.length ≤ 32 ∧ ∀ b ∈ key, b < 256) ∧
        (value.length ≤ 64 ∧ ∀ b ∈ value, b < 256) := by
      simpa [Message.validB, bytesOk_iff] using h
    have ht : parseVarint32 (11 :: (serBytes key ++ (serBytes value ++ rest)))
        = some (11, serBytes key ++ (serBytes value ++ rest)) :=
      parseVarint32_single _ (by omega)
    have hk : parseBytes 32 (serBytes key ++ (serBytes value ++ rest))
        = some (key, serBytes value ++ rest) :=
      parseBytes_serBytes _ hv.1.1 hv.1.2 (by omega)
    have hval : parseBytes 64 (serBytes value ++ rest) = some (value, rest) :=
      parseBytes_serBytes _ hv.2.1 hv.2.2 (by omega)
    simp [Message.ser, Message.parse, List.append_assoc, ht, hk, hval]
  | GetConfig key =>
    have hv := bytesOk_iff.mp (by simpa [Message.validB] using h)
    have ht : parseVarint32 (12 :: (serBytes key ++ rest)) = some (12, serBytes key ++ rest) :=
      parseVarint32_single _ (by omega)
    have hp : parseBytes 32 (serBytes key ++ rest) = some (key, rest) :=
      parseBytes_serBytes _ hv.1 hv.2 (by omega)
    simp [Message.ser, Message.parse, ht, hp]
  | FileList path =>
    have hv := bytesOk_iff.mp (by simpa [Message.validB] using h)
    have ht : parseVarint32 (13 :: (serBytes path ++ rest)) = some (13, serBytes path ++ rest) :=
      parseVarint32_single _ (by omega)
    have hp : parseBytes 128 (serBytes path ++ rest) = some (path, rest) :=
      parseBytes_serBytes _ hv.1 hv.2 (by omega)
    simp [Message.ser, Message.parse, ht, hp]
  | FileRead path =>
    have hv := bytesOk_iff.mp (by simpa [Message.validB] using h)
    have ht : parseVarint32 (14 :: (serBytes path ++ rest)) = some (14, serBytes path ++ rest) :=
      parseVarint32_single _ (by omega)
    have hp : parseBytes 128 (serBytes path ++ rest) = some (path, rest) :=
      parseBytes_serBytes _ hv.1 hv.2 (by omega)
    simp [Message.ser, Message.parse, ht, hp]
  | FileWrite path data =>
    have hv : (path.length ≤ 128 ∧ ∀ b ∈ path, b < 256) ∧
        (data.length ≤ 512 ∧ ∀ b ∈ data, b < 256) := by
      simpa [Message.validB, bytesOk_iff] using h
    have ht : parseVarint32 (15 :: (serBytes path ++ (serBytes data ++ rest)))
        = some (15, serBytes path ++ (serBytes data ++ rest)) :=
      parseVarint32_single _ (by omega)
    have hp : parseBytes 128 (serBytes path ++ (serBytes data ++ rest))
        = some (path, serBytes data ++ rest) :=
      parseBytes_serBytes _ hv.1.1 hv.1.2 (by omega)
    have hd : parseBytes 512 (serBytes data ++ rest) = some (data, rest) :=
      parseBytes_serBytes _ hv.2.1 hv.2.2 (by omega)
    simp [Message.ser, Message.parse, List.append_assoc, ht, hp, hd]
  | Response r =>
    have hv : r.validB = true := by simpa [Message.validB] using h
    have ht : parseVarint32 (16 :: (r.ser ++ rest)) = some (16, r.ser ++ rest) :=
      parseVarint32_single _ (by omega)
    simp [Message.ser, Message.parse, ht, response_parse_ser r rest hv]
  | Error c =>
    have ht : parseVarint32 (17 :: (c.ser ++ rest)) = some (17, c.ser ++ rest) :=
      parseVarint32_single _ (by omega)
    simp [Message.ser, Message.parse, ht, parseErrorCode_ser]

/-- `postcard::from_bytes` returns the value serialized at the front of the
slice and ignores anything after it. -/
theorem fromBytes_ser (m : Message) (extra : List Nat) (h : m.validB = true) :
    fromBytes (m.ser ++ extra) = some m := by
  simp [fromBytes, message_parse_ser m extra h]

/-! ## Frame-level facts -/

/-- The CRC register always holds a 16-bit value. -/
theorem stepBit_lt {s : Nat} (b : Bool) (h : s < 65536) : stepBit s b < 65536 := by
  have hs : s >>> 1 < 65536 := by
    rw [Nat.shiftRight_succ, Nat.shiftRight_zero]
    omega
  unfold stepBit
  split
  · have : (65536 : Nat) = 2 ^ 16 := by norm_num
    rw [this] at hs ⊢
    exact Nat.xor_lt_two_pow hs (by norm_num [crcPoly])
  · exact hs

/-- Feeding bits preserves the 16-bit bound. -/
theorem runBits_lt {s : Nat} (bits : List Bool) (h : s < 65536) :
    runBits s bits < 65536 := by
  induction bits generalizing s with
  | nil => exact h
  | cons b bs ih => exact ih (stepBit_lt b h)

/-- The checksum is a 16-bit value. -/
theorem crc16_lt (data : List Nat) : crc16 data < 65536 := by
  have hstate : ∀ (l : List Nat) (s : Nat), s < 65536 → l.foldl stepByte s < 65536 := by
    intro l
    induction l with
    | nil => intro s hs; exact hs
    | cons x xs ih => intro s hs; exact ih _ (runBits_lt _ hs)
  have h1 : crcState data < 65536 := hstate data 0xFFFF (by norm_num)
  have : (65536 : Nat) = 2 ^ 16 := by norm_num
  rw [crc16, this] at *
  exact Nat.xor_lt_two_pow h1 (by norm_num)

/-- When the serialized payload fits (at most `MAX_MESSAGE_SIZE - 7` bytes),
`encode` succeeds and produces exactly the documented frame layout. -/
theorem encode_ok_of_small (m : Message) (h : m.ser.length ≤ 1017) :
    MessageCodec.encode m =
      .ok (START_BYTE :: PROTOCOL_VERSION :: m.ser.length % 256 :: m.ser.length / 256 % 256 ::
        (m.ser ++
          crc16 (PROTOCOL_VERSION :: m.ser.length % 256 :: m.ser.length / 256 % 256 :: m.ser) % 256 ::
          crc16 (PROTOCOL_VERSION :: m.ser.length % 256 :: m.ser.length / 256 % 256 :: m.ser) / 256 % 256 ::
          [END_BYTE])) := by
  have hts : toSlice m = some m.ser := by
    simp [toSlice, MAX_MESSAGE_SIZE]
    omega
  simp only [MessageCodec.encode, hts, MAX_MESSAGE_SIZE]
  rw [if_neg (by omega), if_neg (by omega), if_neg (by omega)]
  simp

/-- Inversion of a successful `encode`: the payload fits and the frame has
the documented layout. -/
theorem encode_ok_elim (m : Message) (frame : List Nat)
    (h : MessageCodec.encode m = .ok frame) :
    m.ser.length ≤ 1017 ∧
      frame = START_BYTE :: PROTOCOL_VERSION :: m.ser.length % 256 ::
        m.ser.length / 256 % 256 ::
        (m.ser ++
          crc16 (PROTOCOL_VERSION :: m.ser.length % 256 :: m.ser.length / 256 % 256 :: m.ser) % 256 ::
          crc16 (PROTOCOL_VERSION :: m.ser.length % 256 :: m.ser.length / 256 % 256 :: m.ser) / 256 % 256 ::
          [END_BYTE]) := by
  by_cases hsz : m.ser.length ≤ 1017
  · refine ⟨hsz, ?_⟩
    rw [encode_ok_of_small m hsz] at h
    exact (Except.ok.inj h).symm
  · exfalso
    revert h
    simp only [MessageCodec.encode, toSlice, MAX_MESSAGE_SIZE]
    by_cases h1 : m.ser.length ≤ 1024
    · rw [if_pos h1]
      simp only
      by_cases h2 : 4 + m.ser.length > 1024
      · rw [if_pos h2]
        intro h; exact Except.noConfusion h
      · rw [if_neg h2]
        by_cases h3 : 6 + m.ser.length > 1024
        · rw [if_pos h3]
          intro h; exact Except.noConfusion h
        · rw [if_neg h3, if_pos (by omega)]
          intro h; exact Except.noConfusion h
    · rw [if_neg h1]
      intro h; exact Except.noConfusion h

/-- Evaluation of `decode` on any frame with the documented layout: START,
a version byte, a little-endian length matching the payload length, the
payload, two CRC bytes, arbitrary filler bytes, and END.  The checks run in
source order: version before CRC, CRC before deserialization; filler bytes
between the CRC field and END are never examined. -/
theorem decode_shape (v l0 l1 c0 c1 : Nat) (payload junk : List Nat)
    (hlen : l0 + 256 * l1 = payload.length) :
    MessageCodec.decode
        (START_BYTE :: v :: l0 :: l1 :: (payload ++ c0 :: c1 :: (junk ++ [END_BYTE])))
      = some (if v ≠ PROTOCOL_VERSION then .error .UnsupportedVersion
              else if c0 + 256 * c1 ≠ crc16 (v :: l0 :: l1 :: payload) then
                .error .CrcMismatch
              else match fromBytes payload with
                   | some m => .ok m
                   | none => .error .DecodingFailed) := by
  set F := START_BYTE :: v :: l0 :: l1 :: (payload ++ c0 :: c1 :: (junk ++ [END_BYTE]))
    with hF
  have hflen : F.length = payload.length + junk.length + 7 := by
    simp [hF]
    omega
  have hY : (START_BYTE :: v :: l0 :: l1 :: (payload ++ c0 :: c1 :: junk)).length
      = payload.length + junk.length + 6 := by
    simp
    omega
  have hsplit : F = (START_BYTE :: v :: l0 :: l1 :: (payload ++ c0 :: c1 :: junk))
      ++ [END_BYTE] := by
    simp [hF]
  have hlast : F[payload.length + junk.length + 6]? = some END_BYTE := by
    rw [hsplit, ← hY]
    exact List.getElem?_concat_length _ _
  have hidx : F.length - 1 = payload.length + junk.length + 6 := by omega
  have hA : F = [START_BYTE, v, l0, l1] ++ (payload ++ (c0 :: c1 :: (junk ++ [END_BYTE]))) := by
    simp [hF]
  have htake : F.take (4 + payload.length) = [START_BYTE, v, l0, l1] ++ payload := by
    rw [hA]
    have h4 : (4 : Nat) + payload.length
        = ([START_BYTE, v, l0, l1] : List Nat).length + payload.length := by simp
    rw [h4, List.take_append, List.take_left]
  have hsl : sliceRange F 4 (4 + payload.length) = some payload := by
    rw [sliceRange, if_pos ⟨by omega, by omega⟩, htake]
    have h4 : (4 : Nat) = ([START_BYTE, v, l0, l1] : List Nat).length := by simp
    rw [h4, List.drop_left]
  have hcrcsl : sliceRange F 1 (4 + payload.length) = some (v :: l0 :: l1 :: payload) := by
    rw [sliceRange, if_pos ⟨by omega, by omega⟩, htake]
    simp
  have hBlen : ([START_BYTE, v, l0, l1] ++ payload).length = 4 + payload.length := by
    simp
    omega
  have hc0 : F[4 + payload.length]? = some c0 := by
    rw [hA, ← List.append_assoc, List.getElem?_append_right (by simp; omega)]
    have hz : 4 + payload.length - ([START_BYTE, v, l0, l1] ++ payload).length = 0 := by
      simp
      omega
    rw [hz]
    simp
  have hc1 : F[4 + payload.length + 1]? = some c1 := by
    rw [hA, ← List.append_assoc, List.getElem?_append_right (by simp; omega)]
    have hz : 4 + payload.length + 1 - ([START_BYTE, v, l0, l1] ++ payload).length = 1 := by
      simp
      omega
    rw [hz]
    simp
  have h0 : F[0]? = some START_BYTE := by simp [hF]
  have h1 : F[1]? = some v := by simp [hF]
  have h2 : F[2]? = some l0 := by simp [hF]
  have h3 : F[3]? = some l1 := by simp [hF]
  have hlast2 : F[F.length - 1]? = some END_BYTE := by rw [hidx]; exact hlast
  have hlt7 : ¬ (F.length < 7) := by omega
  have hmk : ¬ (START_BYTE ≠ START_BYTE ∨ END_BYTE ≠ END_BYTE) := by simp
  have hlt2 : ¬ (F.length < 4 + payload.length + 3) := by omega
  rw [MessageCodec.decode]
  simp only [hlt7, if_false, h0, h1, h2, h3, hlast2, Option.pure_def,
    Option.bind_eq_bind, Option.some_bind, hmk, hlen, hlt2, hsl, hc0, hc1, hcrcsl,
    ite_false]
  by_cases hv : v = PROTOCOL_VERSION
  · simp only [hv, ne_eq, not_true_eq_false, if_false, ite_false]
    by_cases hcrc : c0 + 256 * c1 = crc16 (PROTOCOL_VERSION :: l0 :: l1 :: payload)
    · simp only [hcrc, ne_eq, not_true_eq_false, if_false, ite_false]
      cases hfb : fromBytes payload <;> simp [hfb]
    · simp [hcrc]
  · simp [hv]

/-! ## Claim theorems -/

set_option maxRecDepth 10000 in
/-- C2: encoding the zero-field command `GetMode` (second declared variant,
ordinal 1) produces exactly the 8-byte frame
`AA 01 01 00 01 30 AB 55`: START, VERSION 0x01, LENGTH 0x0001 LE, the
one-byte payload 0x01 (the variant tag), CRC16 0xAB30 stored LE as
`30 AB`, END. -/
theorem encode_getMode_vector :
    MessageCodec.encode .GetMode
      = .ok [0xAA, 0x01, 0x01, 0x00, 0x01, 0x30, 0xAB, 0x55] := by
  decide

/-- C1 (amended): for every constructible `Message` on which `encode`
succeeds, decoding the encoded frame returns the original value.  (The
hypothesis that `encode` succeeds is necessary: see the counterexample
`roundtrip_fails_for_oversized_filelist`.) -/
theorem decode_encode_roundtrip (m : Message) (frame : List Nat)
    (hval : m.validB = true) (henc : MessageCodec.encode m = .ok frame) :
    MessageCodec.decode frame = some (.ok m) := by
  obtain ⟨hsz, hfr⟩ := encode_ok_elim m frame henc
  have hCnum := crc16_lt
    (PROTOCOL_VERSION :: m.ser.length % 256 :: m.ser.length / 256 % 256 :: m.ser)
  have hshape := decode_shape PROTOCOL_VERSION (m.ser.length % 256)
      (m.ser.length / 256 % 256)
      (crc16 (PROTOCOL_VERSION :: m.ser.length % 256 :: m.ser.length / 256 % 256 :: m.ser) % 256)
      (crc16 (PROTOCOL_VERSION :: m.ser.length % 256 :: m.ser.length / 256 % 256 :: m.ser) / 256 % 256)
      m.ser [] (by omega)
  simp only [List.nil_append] at hshape
  rw [hfr, hshape]
  have hfb : fromBytes m.ser = some m := by simpa using fromBytes_ser m [] hval
  rw [if_neg (by simp), if_neg (by omega), hfb]

set_option maxRecDepth 10000 in
/-- C1 witness: the round trip at the concrete message `GetMode`. -/
theorem decode_encode_roundtrip_witness :
    MessageCodec.decode [0xAA, 0x01, 0x01, 0x00, 0x01, 0x30, 0xAB, 0x55]
      = some (.ok .GetMode) :=
  decode_encode_roundtrip .GetMode [0xAA, 0x01, 0x01, 0x00, 0x01, 0x30, 0xAB, 0x55]
    (by decide) (by decide)

/-- A constructible message (17 file names of 64 bytes each, well inside
the `heapless` capacities 32 and 64) whose postcard payload is 1108 bytes,
more than `MAX_MESSAGE_SIZE`. -/
def oversizedFileListResponse : Message :=
  .Response (.FileList (List.replicate 17 (List.replicate 64 98)))

/-- A second such message (16 file names, payload 1043 bytes). -/
def oversizedFileListResponse2 : Message :=
  .Response (.FileList (List.replicate 16 (List.replicate 64 97)))

set_option maxRecDepth 100000 in
/-- C1 counterexample: a constructible `Message` (all fields within their
declared capacities) on which `encode` fails, so
`decode (encode v)` cannot succeed and return `v`. -/
theorem roundtrip_fails_for_oversized_filelist :
    Message.validB oversizedFileListResponse2 = true ∧
      MessageCodec.encode oversizedFileListResponse2 = .error .EncodingFailed := by
  constructor
  · decide
  · decide

/-- C3: altering only the VERSION byte (index 1) of any successfully
encoded frame to any value other than 0x01 makes `decode` return
`UnsupportedVersion` — never `CrcMismatch` — even though the stored CRC no
longer matches a recomputation over the altered bytes. -/
theorem decode_version_altered (m : Message) (frame : List Nat) (w : Nat)
    (henc : MessageCodec.encode m = .ok frame) (hw : w ≠ PROTOCOL_VERSION) :
    MessageCodec.decode (frame.set 1 w) = some (.error .UnsupportedVersion) := by
  obtain ⟨hsz, hfr⟩ := encode_ok_elim m frame henc
  subst hfr
  have hset : (START_BYTE :: PROTOCOL_VERSION :: m.ser.length % 256 ::
      m.ser.length / 256 % 256 ::
      (m.ser ++
        crc16 (PROTOCOL_VERSION :: m.ser.length % 256 :: m.ser.length / 256 % 256 :: m.ser) % 256 ::
        crc16 (PROTOCOL_VERSION :: m.ser.length % 256 :: m.ser.length / 256 % 256 :: m.ser) / 256 % 256 ::
        [END_BYTE])).set 1 w
      = START_BYTE :: w :: m.ser.length % 256 :: m.ser.length / 256 % 256 ::
      (m.ser ++
        crc16 (PROTOCOL_VERSION :: m.ser.length % 256 :: m.ser.length / 256 % 256 :: m.ser) % 256 ::
        crc16 (PROTOCOL_VERSION :: m.ser.length % 256 :: m.ser.length / 256 % 256 :: m.ser) / 256 % 256 ::
        [END_BYTE]) := rfl
  rw [hset]
  have hshape := decode_shape w (m.ser.length % 256) (m.ser.length / 256 % 256)
      (crc16 (PROTOCOL_VERSION :: m.ser.length % 256 :: m.ser.length / 256 % 256 :: m.ser) % 256)
      (crc16 (PROTOCOL_VERSION :: m.ser.length % 256 :: m.ser.length / 256 % 256 :: m.ser) / 256 % 256)
      m.ser [] (by omega)
  simp only [List.nil_append] at hshape
  rw [hshape, if_pos hw]

set_option maxRecDepth 10000 in
/-- C3 witness: version byte of the encoded `GetMode` frame set to 0x02. -/
theorem decode_version_altered_witness :
    MessageCodec.decode ([0xAA, 0x01, 0x01, 0x00, 0x01, 0x30, 0xAB, 0x55].set 1 2)
      = some (.error .UnsupportedVersion) :=
  decode_version_altered .GetMode [0xAA, 0x01, 0x01, 0x00, 0x01, 0x30, 0xAB, 0x55] 2
    (by decide) (by decide)

/-- C10: `decode` does not require the input length to equal LENGTH + 7.
For any frame whose markers, version and LENGTH field are in place, whose
stored CRC matches the checksum over VERSION..PAYLOAD, and whose payload
deserializes, `decode` succeeds — any bytes lying between the CRC field and
the final END byte are ignored, never checked, and never cause an error. -/
theorem decode_ignores_bytes_before_end (l0 l1 c0 c1 : Nat)
    (payload junk : List Nat) (m : Message)
    (hlen : l0 + 256 * l1 = payload.length)
    (hcrc : c0 + 256 * c1 = crc16 (PROTOCOL_VERSION :: l0 :: l1 :: payload))
    (hfb : fromBytes payload = some m) :
    MessageCodec.decode
        (START_BYTE :: PROTOCOL_VERSION :: l0 :: l1 ::
          (payload ++ c0 :: c1 :: (junk ++ [END_BYTE])))
      = some (.ok m) := by
  rw [decode_shape PROTOCOL_VERSION l0 l1 c0 c1 payload junk hlen]
  rw [if_neg (by simp), if_neg (by omega), hfb]

set_option maxRecDepth 10000 in
/-- C10 witness: a 9-byte frame around the 1-byte `GetMode` payload with
one extra filler byte 0xEE between the CRC field and END decodes fine. -/
theorem decode_ignores_bytes_before_end_witness :
    MessageCodec.decode [0xAA, 0x01, 0x01, 0x00, 0x01, 0x30, 0xAB, 0xEE, 0x55]
      = some (.ok .GetMode) :=
  decode_ignores_bytes_before_end 1 0 0x30 0xAB [1] [0xEE] .GetMode
    (by decide) (by decide) (by decide)

/-- C4 (amended): `decode` rejects unknown ordinals and truncated payloads
with `DecodingFailed`, but it does not reject trailing payload bytes: for
every frame whose markers, version, LENGTH and CRC are valid and whose
payload is a complete valid encoding followed by extra bytes (counted in
LENGTH and covered by the CRC), `decode` returns the prefix value, because
`postcard::from_bytes` ignores bytes left over after the value. -/
theorem decode_accepts_trailing_payload_bytes (m : Message) (extra : List Nat)
    (hval : m.validB = true)
    (hsz : m.ser.length + extra.length < 65536) :
    MessageCodec.decode
        (START_BYTE :: PROTOCOL_VERSION :: (m.ser ++ extra).length % 256 ::
          (m.ser ++ extra).length / 256 % 256 ::
          ((m.ser ++ extra) ++
            crc16 (PROTOCOL_VERSION :: (m.ser ++ extra).length % 256 ::
              (m.ser ++ extra).length / 256 % 256 :: (m.ser ++ extra)) % 256 ::
            crc16 (PROTOCOL_VERSION :: (m.ser ++ extra).length % 256 ::
              (m.ser ++ extra).length / 256 % 256 :: (m.ser ++ extra)) / 256 % 256 ::
            [END_BYTE]))
      = some (.ok m) := by
  have hL : (m.ser ++ extra).length = m.ser.length + extra.length := by simp
  have hCnum := crc16_lt (PROTOCOL_VERSION :: (m.ser ++ extra).length % 256 ::
      (m.ser ++ extra).length / 256 % 256 :: (m.ser ++ extra))
  have hshape := decode_shape PROTOCOL_VERSION ((m.ser ++ extra).length % 256)
      ((m.ser ++ extra).length / 256 % 256)
      (crc16 (PROTOCOL_VERSION :: (m.ser ++ extra).length % 256 ::
        (m.ser ++ extra).length / 256 % 256 :: (m.ser ++ extra)) % 256)
      (crc16 (PROTOCOL_VERSION :: (m.ser ++ extra).length % 256 ::
        (m.ser ++ extra).length / 256 % 256 :: (m.ser ++ extra)) / 256 % 256)
      (m.ser ++ extra) [] (by omega)
  simp only [List.nil_append] at hshape
  rw [hshape]
  rw [if_neg (by simp), if_neg (by omega), fromBytes_ser m extra hval]

set_option maxRecDepth 10000 in
/-- C4 witness for the amended claim: `GetMode` payload followed by one
trailing byte 99, with matching LENGTH and CRC, decodes to `GetMode`. -/
theorem decode_accepts_trailing_payload_bytes_witness :
    MessageCodec.decode [0xAA, 0x01, 0x02, 0x00, 0x01, 99, 0x00, 0xB5, 0x55]
      = some (.ok .GetMode) :=
  decode_accepts_trailing_payload_bytes .GetMode [99] (by decide) (by decide)

set_option maxRecDepth 10000 in
/-- C4 counterexample: a frame whose markers, version, LENGTH and CRC are
all valid and whose 2-byte payload is the valid `GetMode` encoding plus one
trailing garbage byte.  The claim says `decode` must return a decoding
failure; instead it returns the prefix value `GetMode`. -/
theorem decode_trailing_bytes_returns_value :
    MessageCodec.decode [0xAA, 0x01, 0x02, 0x00, 0x01, 99, 0x00, 0xB5, 0x55]
      = some (.ok .GetMode) ∧
    ∀ e : Error, some (.ok Message.GetMode)
      ≠ (some (.error e) : Option (Except Error Message)) := by
  constructor
  · decide
  · intro e
    simp

/-- C8 (amended): `encode` succeeds exactly when the postcard payload fits
the fixed buffers, i.e. when its length is at most
`MAX_MESSAGE_SIZE - 7 = 1017` bytes; the frame then has length
payload + 7 ≤ 1024.  (This covers every constructible `Message` except
oversized `Response::FileList` values, for which encode fails: see the
counterexample `encode_fails_for_oversized_filelist`.) -/
theorem encode_ok_bounds (m : Message) (h : m.ser.length ≤ 1017) :
    ∃ frame, MessageCodec.encode m = .ok frame ∧
      frame.length = m.ser.length + 7 ∧ frame.length ≤ MAX_MESSAGE_SIZE := by
  refine ⟨_, encode_ok_of_small m h, ?_, ?_⟩
  · simp
  · simp [MAX_MESSAGE_SIZE]
    omega

set_option maxRecDepth 10000 in
/-- C8 witness: the bound at the concrete message `GetMode`. -/
theorem encode_ok_bounds_witness :
    ∃ frame, MessageCodec.encode .GetMode = .ok frame ∧
      frame.length = (Message.ser .GetMode).length + 7 ∧
      frame.length ≤ MAX_MESSAGE_SIZE :=
  encode_ok_bounds .GetMode (by decide)

set_option maxRecDepth 100000 in
/-- C8 counterexample: a constructible `Message` (17 file names of 64
bytes, within all heapless capacities) for which `encode` fails with
`EncodingFailed` rather than returning a frame. -/
theorem encode_fails_for_oversized_filelist :
    Message.validB oversizedFileListResponse = true ∧
      MessageCodec.encode oversizedFileListResponse = .error .EncodingFailed := by
  constructor
  · decide
  · decide

/-- C9: `heapless` construction (push by push, as `from_slice` and
`String::try_from` do) either preserves the input exactly — when it is
within the capacity — or fails; it never truncates.  Consequently every
constructed value satisfies its capacity bound. -/
theorem hvecFromSlice_spec (cap : Nat) (l : List Nat) :
    hvecFromSlice cap l = if l.length ≤ cap then some l else none := by
  have key : ∀ (l acc : List Nat), acc.length ≤ cap →
      List.foldlM (hvecPush cap) acc l
        = if acc.length + l.length ≤ cap then some (acc ++ l) else none := by
    intro l
    induction l with
    | nil =>
      intro acc hacc
      simp [hacc]
    | cons b bs ih =>
      intro acc hacc
      rw [List.foldlM_cons]
      by_cases hfull : acc.length < cap
      · have hpush : hvecPush cap acc b = some (acc ++ [b]) := by
          simp [hvecPush, hfull]
        rw [hpush]
        simp only [Option.bind_eq_bind, Option.some_bind]
        rw [ih (acc ++ [b]) (by simp; omega)]
        by_cases hfit : acc.length + (bs.length + 1) ≤ cap
        · rw [if_pos (by simp; omega), if_pos (by simp; omega)]
          simp
        · rw [if_neg (by simp; omega), if_neg (by simp; omega)]
      · have hpush : hvecPush cap acc b = none := by
          simp [hvecPush, hfull]
        rw [hpush]
        simp only [Option.bind_eq_bind, Option.none_bind]
        rw [if_neg (by simp; omega)]
  have h0 := key l [] (by simp)
  simpa [hvecFromSlice] using h0

/-- C5 (amended): decoding a proper truncation of a successfully encoded
frame fails safely, but with an error that depends on the truncated frame's
last byte, because the marker check runs before the length check: a
truncation shorter than 7 bytes gives `FrameTooShort`; a longer proper
truncation gives `FrameTooShort` when its last byte happens to equal the
END marker 0x55, and `InvalidFrame` otherwise.  (The original claim's
universal `FrameTooShort` fails: see `truncated_getMode_frame_invalid`.) -/
theorem decode_truncated_frame (m : Message) (frame : List Nat) (p : Nat)
    (henc : MessageCodec.encode m = .ok frame) (hp : p < frame.length) :
    MessageCodec.decode (frame.take p)
      = some (.error (if p < 7 then .FrameTooShort
                      else if frame.getD (p - 1) 0 = END_BYTE then .FrameTooShort
                      else .InvalidFrame)) := by
  obtain ⟨hsz, hfr⟩ := encode_ok_elim m frame henc
  have hflen : frame.length = m.ser.length + 7 := by
    rw [hfr]
    simp
  by_cases hp7 : p < 7
  · have hlt : (frame.take p).length < 7 := by
      rw [List.length_take]
      omega
    rw [MessageCodec.decode, if_pos hlt, if_pos hp7]
    rfl
  · have hTlen : (frame.take p).length = p := by
      rw [List.length_take]
      omega
    have hf0 : frame[0]? = some START_BYTE := by rw [hfr]; simp
    have hf1 : frame[1]? = some PROTOCOL_VERSION := by rw [hfr]; simp
    have hf2 : frame[2]? = some (m.ser.length % 256) := by rw [hfr]; simp
    have hf3 : frame[3]? = some (m.ser.length / 256 % 256) := by rw [hfr]; simp
    have ht0 : (frame.take p)[0]? = some START_BYTE := by
      rw [List.getElem?_take, if_pos (by omega), hf0]
    have ht1 : (frame.take p)[1]? = some PROTOCOL_VERSION := by
      rw [List.getElem?_take, if_pos (by omega), hf1]
    have ht2 : (frame.take p)[2]? = some (m.ser.length % 256) := by
      rw [List.getElem?_take, if_pos (by omega), hf2]
    have ht3 : (frame.take p)[3]? = some (m.ser.length / 256 % 256) := by
      rw [List.getElem?_take, if_pos (by omega), hf3]
    have htlast : (frame.take p)[(frame.take p).length - 1]? = some (frame.getD (p - 1) 0) := by
      rw [hTlen, List.getElem?_take, if_pos (by omega),
          List.getElem?_eq_getElem (show p - 1 < frame.length by omega),
          List.getD_eq_getElem frame 0 (show p - 1 < frame.length by omega)]
    rw [MessageCodec.decode, if_neg (by omega), ht0, ht1, ht2, ht3, htlast]
    simp only [Option.bind_eq_bind, Option.some_bind]
    by_cases hend : frame.getD (p - 1) 0 = END_BYTE
    · rw [if_neg (by push_neg; exact ⟨rfl, hend⟩),
          if_neg (by simp), if_pos (by omega)]
      rw [if_neg hp7, if_pos hend]
      rfl
    · rw [if_pos (Or.inr hend)]
      rw [if_neg hp7, if_neg hend]
      rfl

set_option maxRecDepth 10000 in
/-- C5 witness: the amended statement at the 7-byte truncation of the
encoded `GetMode` frame. -/
theorem decode_truncated_frame_witness :
    MessageCodec.decode ([0xAA, 0x01, 0x01, 0x00, 0x01, 0x30, 0xAB, 0x55].take 7)
      = some (.error (if 7 < 7 then .FrameTooShort
                      else if [0xAA, 0x01, 0x01, 0x00, 0x01, 0x30, 0xAB,
                          (0x55 : Nat)].getD (7 - 1) 0 = END_BYTE then .FrameTooShort
                      else .InvalidFrame)) :=
  decode_truncated_frame .GetMode [0xAA, 0x01, 0x01, 0x00, 0x01, 0x30, 0xAB, 0x55] 7
    (by decide) (by decide)

set_option maxRecDepth 10000 in
/-- C5 counterexample: the 7-byte proper truncation of the encoded
`GetMode` frame (not shorter than 7, but shorter than the LENGTH-implied
8 bytes) decodes to `InvalidFrame`, not the claimed `FrameTooShort`,
because its last byte 0xAB fails the END-marker check first. -/
theorem truncated_getMode_frame_invalid :
    MessageCodec.encode .GetMode = .ok [0xAA, 0x01, 0x01, 0x00, 0x01, 0x30, 0xAB, 0x55] ∧
    MessageCodec.decode ([0xAA, 0x01, 0x01, 0x00, 0x01, 0x30, 0xAB, 0x55].take 7)
      = some (.error .InvalidFrame) ∧
    Error.InvalidFrame ≠ Error.FrameTooShort := by
  refine ⟨by decide, by decide, by decide⟩

/-- Reduction of a bind on a present `Option` value, in the form produced
by `do` notation. -/
theorem optBind_some {α β : Type} (a : α) (f : α → Option β) :
    (some a >>= f) = f a := rfl

/-- C7: `decode` is total on arbitrary input: every slice access is in
bounds (`decode` never returns the `none` that models a Rust panic), and
the result is `Ok` or one of the taxonomy errors. -/
theorem decode_total_no_panic (frame : List Nat) :
    (MessageCodec.decode frame).isSome := by
  rw [MessageCodec.decode]
  by_cases h7 : frame.length < 7
  · rw [if_pos h7]
    rfl
  · rw [if_neg h7,
        List.getElem?_eq_getElem (show 0 < frame.length by omega),
        List.getElem?_eq_getElem (show frame.length - 1 < frame.length by omega),
        List.getElem?_eq_getElem (show 1 < frame.length by omega),
        List.getElem?_eq_getElem (show 2 < frame.length by omega),
        List.getElem?_eq_getElem (show 3 < frame.length by omega)]
    simp only [optBind_some]
    split
    · rfl
    · split
      · rfl
      · split
        · rfl
        · rename_i hlen2
          simp only [sliceRange]
          rw [if_pos ⟨by omega, by omega⟩, if_pos ⟨by omega, by omega⟩]
          rw [List.getElem?_eq_getElem (by omega),
              List.getElem?_eq_getElem (by omega)]
          simp only [optBind_some]
          split
          · rfl
          · split <;> rfl

/-! ## CRC single-bit sensitivity

The CRC register update is linear over GF(2) in the pair (state, input
bit); the init and xorout masks are affine offsets that cancel when two
checksums are compared.  A single flipped payload bit therefore shifts the
final register by the image of a nonzero vector under a chain of injective
linear steps, which is nonzero, so the checksum changes. -/

/-- The right shift distributes over xor. -/
theorem shiftRight_xor (a b : Nat) : (a ^^^ b) >>> 1 = a >>> 1 ^^^ b >>> 1 := by
  apply Nat.eq_of_testBit_eq
  intro i
  simp [Nat.testBit_shiftRight, Nat.testBit_xor]

/-- The CRC bit step is linear: it maps an xor of states and an xor of
input bits to the xor of the two step results. -/
theorem stepBit_xor (s d : Nat) (b e : Bool) :
    stepBit (s ^^^ d) (xor b e) = stepBit s b ^^^ stepBit d e := by
  unfold stepBit
  rw [show xor ((s ^^^ d).testBit 0) (xor b e)
      = xor (xor (s.testBit 0) b) (xor (d.testBit 0) e) by
    rw [Nat.testBit_xor]
    cases s.testBit 0 <;> cases d.testBit 0 <;> cases b <;> cases e <;> rfl]
  cases h1 : xor (s.testBit 0) b <;> cases h2 : xor (d.testBit 0) e
  · rw [show (xor false false) = false from rfl]
    rw [if_neg Bool.false_ne_true, if_neg Bool.false_ne_true, if_neg Bool.false_ne_true]
    exact shiftRight_xor s d
  · rw [show (xor false true) = true from rfl]
    rw [if_pos rfl, if_neg Bool.false_ne_true, if_pos rfl]
    rw [shiftRight_xor, Nat.xor_assoc]
  · rw [show (xor true false) = true from rfl]
    rw [if_pos rfl, if_pos rfl, if_neg Bool.false_ne_true]
    rw [shiftRight_xor]
    apply Nat.eq_of_testBit_eq
    intro i
    simp only [Nat.testBit_xor]
    cases (s >>> 1).testBit i <;> cases (d >>> 1).testBit i <;>
      cases crcPoly.testBit i <;> rfl
  · rw [show (xor true true) = false from rfl]
    rw [if_neg Bool.false_ne_true, if_pos rfl, if_pos rfl]
    rw [shiftRight_xor]
    apply Nat.eq_of_testBit_eq
    intro i
    simp only [Nat.testBit_xor]
    cases (s >>> 1).testBit i <;> cases (d >>> 1).testBit i <;>
      cases crcPoly.testBit i <;> rfl

/-- Feeding xored bit streams of equal length from xored states yields the
xor of the two runs. -/
theorem runBits_xor :
    ∀ (bs es : List Bool) (s d : Nat), bs.length = es.length →
      runBits (s ^^^ d) (List.zipWith xor bs es) = runBits s bs ^^^ runBits d es := by
  intro bs
  induction bs with
  | nil =>
    intro es s d h
    cases es with
    | nil => simp [runBits]
    | cons e es => simp at h
  | cons b bs ih =>
    intro es s d h
    cases es with
    | nil => simp at h
    | cons e es =>
      simp only [List.zipWith_cons_cons]
      show runBits (stepBit (s ^^^ d) (xor b e)) (List.zipWith xor bs es)
        = runBits (stepBit s b) bs ^^^ runBits (stepBit d e) es
      rw [stepBit_xor]
      exact ih es _ _ (by simpa using h)

/-- Zero state and zero input stay at zero. -/
theorem stepBit_zero_false : stepBit 0 false = 0 := rfl

/-- A nonzero 16-bit register never returns to zero on zero input: in the
even case the shift keeps a nonzero value (the low bit is clear), and in
the odd case the polynomial sets bit 15, which the shifted state cannot
clear. -/
theorem stepBit_false_ne_zero {s : Nat} (hlt : s < 65536) (hne : s ≠ 0) :
    stepBit s false ≠ 0 := by
  unfold stepBit
  cases h : s.testBit 0 with
  | false =>
    simp only [h, Bool.xor_false]
    rw [if_neg Bool.false_ne_true]
    rw [Nat.testBit_zero] at h
    simp only [decide_eq_false_iff_not] at h
    rw [Nat.shiftRight_one]
    omega
  | true =>
    simp only [h, Bool.xor_false]
    rw [if_pos trivial]
    intro h0
    have h15 := congrArg (fun x => Nat.testBit x 15) h0
    simp only [Nat.testBit_xor, Nat.zero_testBit] at h15
    have hs15 : (s >>> 1).testBit 15 = false := by
      apply Nat.testBit_lt_two_pow
      rw [Nat.shiftRight_one]
      omega
    rw [hs15] at h15
    have hp15 : crcPoly.testBit 15 = true := by decide
    rw [hp15] at h15
    exact Bool.noConfusion h15

/-- Zero-input runs preserve nonzeroness of a 16-bit register. -/
theorem runBits_replicate_false_ne_zero :
    ∀ (k : Nat) {s : Nat}, s < 65536 → s ≠ 0 →
      runBits s (List.replicate k false) ≠ 0 := by
  intro k
  induction k with
  | zero =>
    intro s _ hne
    simpa [runBits] using hne
  | succ n ih =>
    intro s hlt hne
    rw [List.replicate_succ]
    show runBits (stepBit s false) (List.replicate n false) ≠ 0
    exact ih (stepBit_lt false hlt) (stepBit_false_ne_zero hlt hne)

/-- Byte bit-decomposition turns xor of bytes into pointwise xor of bits. -/
theorem byteToBits_xor (a b : Nat) :
    byteToBits (a ^^^ b) = List.zipWith xor (byteToBits a) (byteToBits b) := by
  simp only [byteToBits, Nat.testBit_xor]
  rfl

/-- Xoring a bit stream with all-zero bits changes nothing. -/
theorem zipWith_xor_false (l : List Bool) :
    List.zipWith xor l (List.replicate l.length false) = l := by
  induction l with
  | nil => rfl
  | cons b bs ih => simp [List.replicate_succ, ih]

/-- Injecting a single-bit difference into the zero register leaves it
nonzero; checked for each of the 8 bit positions of a byte. -/
theorem kick_ne_zero : ∀ j, j < 8 → runBits 0 (byteToBits (2 ^ j)) ≠ 0 := by
  decide

/-- The single-bit kick is a 16-bit value. -/
theorem kick_lt : ∀ j, j < 8 → runBits 0 (byteToBits (2 ^ j)) < 65536 := by
  decide

/-- Processing further bytes preserves a register difference: if two
16-bit registers differ, they still differ after both absorb the same
byte list. -/
theorem foldl_stepByte_xor_ne :
    ∀ (post : List Nat) (t d : Nat), d ≠ 0 → d < 65536 →
      List.foldl stepByte (t ^^^ d) post ≠ List.foldl stepByte t post := by
  intro post
  induction post with
  | nil =>
    intro t d hd hlt h0
    apply hd
    have h1 := congrArg (fun x => t ^^^ x) h0
    simpa [Nat.xor_cancel_left, Nat.xor_self] using h1
  | cons x post ih =>
    intro t d hd hlt
    simp only [List.foldl_cons]
    have hz : List.zipWith xor (byteToBits x) (List.replicate 8 false) = byteToBits x :=
      zipWith_xor_false (byteToBits x)
    have hstep : stepByte (t ^^^ d) x
        = stepByte t x ^^^ runBits d (List.replicate 8 false) := by
      unfold stepByte
      have h := runBits_xor (byteToBits x) (List.replicate 8 false) t d (by simp [byteToBits])
      rw [hz] at h
      exact h
    rw [hstep]
    exact ih (stepByte t x) _
      (runBits_replicate_false_ne_zero 8 hlt hd) (runBits_lt _ hlt)

/-- Single-bit CRC sensitivity: flipping bit `j` of any one byte of the
checksummed data changes the CRC-16/ISO-HDLC checksum. -/
theorem crc16_flip_ne (pre post : List Nat) (x j : Nat) (hj : j < 8) :
    crc16 (pre ++ (x ^^^ 2 ^ j) :: post) ≠ crc16 (pre ++ x :: post) := by
  intro h0
  have hstate : crcState (pre ++ (x ^^^ 2 ^ j) :: post) = crcState (pre ++ x :: post) := by
    have h1 := congrArg (fun z => z ^^^ 0xFFFF) h0
    simpa [crc16, Nat.xor_cancel_right] using h1
  have e1 : crcState (pre ++ (x ^^^ 2 ^ j) :: post)
      = List.foldl stepByte (stepByte (crcState pre) (x ^^^ 2 ^ j)) post := by
    unfold crcState
    rw [List.foldl_append]
    rfl
  have e3 : crcState (pre ++ x :: post)
      = List.foldl stepByte (stepByte (crcState pre) x) post := by
    unfold crcState
    rw [List.foldl_append]
    rfl
  have e2 : stepByte (crcState pre) (x ^^^ 2 ^ j)
      = stepByte (crcState pre) x ^^^ runBits 0 (byteToBits (2 ^ j)) := by
    unfold stepByte
    rw [byteToBits_xor]
    have h := runBits_xor (byteToBits x) (byteToBits (2 ^ j)) (crcState pre) 0
      (by simp [byteToBits])
    rw [Nat.xor_zero] at h
    exact h
  rw [e1, e2, e3] at hstate
  exact foldl_stepByte_xor_ne post (stepByte (crcState pre) x)
    (runBits 0 (byteToBits (2 ^ j))) (kick_ne_zero j hj) (kick_lt j hj) hstate

/-- Setting an element behind a fixed four-byte frame header. -/
theorem set_cons4 (a b c d x : Nat) (l : List Nat) (i : Nat) :
    (a :: b :: c :: d :: l).set (i + 4) x = a :: b :: c :: d :: l.set i x := rfl

/-- Reading an element behind a fixed four-byte frame header. -/
theorem getD_cons4 (a b c d : Nat) (l : List Nat) (i : Nat) :
    (a :: b :: c :: d :: l).getD (i + 4) 0 = l.getD i 0 := rfl

/-- C6: for every successfully encoded frame, flipping any single bit
(position `j`) of any payload byte (frame index `k` with
4 ≤ k < 4 + LENGTH; such a byte exists whenever the payload is non-empty)
yields a frame on which `decode` returns `CrcMismatch`. -/
theorem decode_payload_bitflip_crc_mismatch (m : Message) (frame : List Nat)
    (k j : Nat) (henc : MessageCodec.encode m = .ok frame)
    (hk4 : 4 ≤ k) (hk : k < 4 + m.ser.length) (hj : j < 8) :
    MessageCodec.decode (frame.set k (frame.getD k 0 ^^^ 2 ^ j))
      = some (.error .CrcMismatch) := by
  obtain ⟨hsz, hfr⟩ := encode_ok_elim m frame henc
  set C := crc16 (PROTOCOL_VERSION :: m.ser.length % 256 ::
    m.ser.length / 256 % 256 :: m.ser) with hC
  obtain ⟨i, rfl⟩ : ∃ i, k = i + 4 := ⟨k - 4, by omega⟩
  have hi : i < m.ser.length := by omega
  have hgd : frame.getD (i + 4) 0 = m.ser.getD i 0 := by
    rw [hfr, getD_cons4]
    exact List.getD_append _ _ _ i hi
  rw [hgd, hfr, set_cons4, List.set_append, if_pos hi]
  have hshape := decode_shape PROTOCOL_VERSION (m.ser.length % 256)
      (m.ser.length / 256 % 256) (C % 256) (C / 256 % 256)
      (m.ser.set i (m.ser.getD i 0 ^^^ 2 ^ j)) []
      (by rw [List.length_set]; omega)
  simp only [List.nil_append] at hshape
  rw [hshape, if_neg (by simp)]
  have hCnum : C < 65536 := by rw [hC]; exact crc16_lt _
  have hflip : crc16 (PROTOCOL_VERSION :: m.ser.length % 256 ::
      m.ser.length / 256 % 256 :: m.ser.set i (m.ser.getD i 0 ^^^ 2 ^ j)) ≠ C := by
    rw [hC]
    have hdec : m.ser.set i (m.ser.getD i 0 ^^^ 2 ^ j)
        = m.ser.take i ++ (m.ser.getD i 0 ^^^ 2 ^ j) :: m.ser.drop (i + 1) := by
      rw [List.set_eq_take_append_cons_drop, if_pos hi]
    have horig : m.ser.take i ++ m.ser.getD i 0 :: m.ser.drop (i + 1) = m.ser := by
      conv_rhs => rw [← List.take_append_drop i m.ser]
      rw [List.drop_eq_getElem_cons hi, List.getD_eq_getElem m.ser 0 hi]
    have hne := crc16_flip_ne
        (PROTOCOL_VERSION :: m.ser.length % 256 :: m.ser.length / 256 % 256 :: m.ser.take i)
        (m.ser.drop (i + 1)) (m.ser.getD i 0) j hj
    simp only [List.cons_append] at hne
    rw [horig] at hne
    rw [hdec]
    exact hne
  rw [if_pos (by omega)]

set_option maxRecDepth 40000 in
/-- C6 witness: flipping bit 0 of the payload byte of the encoded
`I2cScan` frame (index 4: 0x02 becomes 0x03) yields `CrcMismatch`. -/
theorem decode_payload_bitflip_crc_mismatch_witness :
    MessageCodec.decode ([0xAA, 0x01, 0x01, 0x00, 0x02, 0xAB, 0x99, 0x55].set 4
        ([0xAA, 0x01, 0x01, 0x00, 0x02, 0xAB, 0x99, (0x55 : Nat)].getD 4 0 ^^^ 2 ^ 0))
      = some (.error .CrcMismatch) :=
  decode_payload_bitflip_crc_mismatch .I2cScan
    [0xAA, 0x01, 0x01, 0x00, 0x02, 0xAB, 0x99, 0x55] 4 0
    (by decide) (by decide) (by decide) (by decide)
